import Mathlib

/-!
# dnsmasq-manager: static DHCP host store — shallow embedding

This file embeds the host-entry codec (`pkg/model/static_dhcp_host.go`), the
repository read path (`hosts/hosts_service.go`), and the host service /
repository mutation layer of the dnsmasq-manager repository, and proves the
specified properties about them.

Strings are modelled as `List Char` (Go strings at the byte/rune level),
Go byte slices (`net.HardwareAddr`, `net.IP`) as `List Nat` with values
below 256, and Go `error` values as lists of messages (`[]` is the nil
error; `errors.Join` is list append, which matches both the joined `Error()`
text and `errors.Is` membership).
-/

namespace DMM

/-- Go `strings.Split` on a single-character separator: always returns at
least one field and keeps empty fields. -/
def splitChar (sep : Char) : List Char → List (List Char)
  | [] => [[]]
  | c :: rest =>
    if c = sep then [] :: splitChar sep rest
    else
      match splitChar sep rest with
      | g :: gs => (c :: g) :: gs
      | [] => [[c]]

/-- Match a literal at the front of the input and return the remainder
(`none` when the literal does not match), as Go `fmt` scanning does for
literal format text. -/
def dropLit : List Char → List Char → Option (List Char)
  | [], s => some s
  | _ :: _, [] => none
  | p :: ps, c :: cs => if c = p then dropLit ps cs else none

/-- Go `strings.HasPrefix`. -/
def hasPfx (p s : List Char) : Bool := p.isPrefixOf s

/-- Go's `hexDigit` table in `net` (the string constant
`"0123456789abcdef"`). -/
def hexTable : List Char := "0123456789abcdef".data

/-- Hex digit characters used by Go's address formatting, lowercase. -/
def hexDigit (n : Nat) : Char := hexTable.getD n '0'

/-- One byte as two lowercase hex digits, as in
`net.HardwareAddr.String`. -/
def byteHex (b : Nat) : List Char := [hexDigit (b / 16), hexDigit (b % 16)]

/-- Decimal rendering of one byte value (`< 1000` suffices for IP octets),
as Go's `ubtoa`. -/
def byteDec (b : Nat) : List Char :=
  if b < 10 then [hexDigit b]
  else if b < 100 then [hexDigit (b / 10), hexDigit (b % 10)]
  else [hexDigit (b / 100), hexDigit (b / 10 % 10), hexDigit (b % 10)]

/-- Go `net.HardwareAddr.String`: `""` for an empty address, otherwise
colon-separated lowercase hex pairs: tail part. -/
def macStringAux : List Nat → List Char
  | [] => []
  | b :: bs => ':' :: byteHex b ++ macStringAux bs

/-- Go `net.HardwareAddr.String`. -/
def macString : List Nat → List Char
  | [] => []
  | b :: bs => byteHex b ++ macStringAux bs

/-- One hex digit's value, as Go's `xtoi` accepts (`0-9`, `a-f`, `A-F`). -/
def hexVal (c : Char) : Option Nat :=
  if '0' ≤ c ∧ c ≤ '9' then some (c.toNat - '0'.toNat)
  else if 'a' ≤ c ∧ c ≤ 'f' then some (c.toNat - 'a'.toNat + 10)
  else if 'A' ≤ c ∧ c ≤ 'F' then some (c.toNat - 'A'.toNat + 10)
  else none

/-- Two hex digit characters as one byte (Go `xtoi2` without the separator
check, which `hexPairsSep` performs). -/
def hexByte (h l : Char) : Option Nat :=
  match hexVal h, hexVal l with
  | some hv, some lv => some (16 * hv + lv)
  | _, _ => none

/-- The hex-pair groups of a MAC address: `hh`, `hh sep hh`, … (the
colon/dash branch of Go `net.ParseMAC`, with the separator fixed to the
character found at index 2). -/
def hexPairsSep (sep : Char) : List Char → Option (List Nat)
  | [h, l] =>
    match hexByte h l with
    | some b => some [b]
    | none => none
  | h :: l :: s :: rest =>
    if s = sep then
      match hexByte h l, hexPairsSep sep rest with
      | some b, some bs => some (b :: bs)
      | _, _ => none
    else none
  | _ => none

/-- The four-hex-digit groups of a dotted MAC address: `hhhh`, `hhhh.hhhh`, …
(the dot branch of Go `net.ParseMAC`). -/
def hexQuadsDot : List Char → Option (List Nat)
  | [a, b, c, d] =>
    match hexByte a b, hexByte c d with
    | some x, some y => some [x, y]
    | _, _ => none
  | a :: b :: c :: d :: s :: rest =>
    if s = '.' then
      match hexByte a b, hexByte c d, hexQuadsDot rest with
      | some x, some y, some bs => some (x :: y :: bs)
      | _, _, _ => none
    else none
  | _ => none

/-- Model of Go `net.ParseMAC`: EUI-48, EUI-64 or 20-byte InfiniBand
addresses, in colon-, dash- or dot-separated form; inputs shorter than 14
characters are rejected up front. -/
def parseMAC (s : List Char) : Option (List Nat) :=
  if s.length < 14 then none
  else if s.get? 2 = some ':' ∨ s.get? 2 = some '-' then
    match hexPairsSep (if s.get? 2 = some ':' then ':' else '-') s with
    | some bs => if bs.length = 6 ∨ bs.length = 8 ∨ bs.length = 20 then some bs else none
    | none => none
  else if s.get? 4 = some '.' then
    match hexQuadsDot s with
    | some bs => if bs.length = 6 ∨ bs.length = 8 ∨ bs.length = 20 then some bs else none
    | none => none
  else none

/-- Value of a run of decimal digit characters. -/
def decValue (s : List Char) : Nat := s.foldl (fun a c => 10 * a + (c.toNat - '0'.toNat)) 0

/-- One dotted-decimal IPv4 field, as Go's parser accepts it: one to three
decimal digits, no leading zero, value at most 255. -/
def parseV4Field (s : List Char) : Option Nat :=
  if s = [] ∨ ¬ s.all Char.isDigit ∨ 3 < s.length then none
  else if 1 < s.length ∧ s.head? = some '0' then none
  else if 255 < decValue s then none
  else some (decValue s)

/-- The 12-byte tag Go's `net` package puts in front of an IPv4 address
stored in 16-byte form (`v4InV6Prefix`). -/
def v4InV6 : List Nat := [0, 0, 0, 0, 0, 0, 0, 0, 0, 0, 0xff, 0xff]

/-- A dotted-decimal IPv4 address parsed to the raw four bytes. -/
def parseV4Raw (s : List Char) : Option (List Nat) :=
  match splitChar '.' s with
  | [a, b, c, d] =>
    match parseV4Field a, parseV4Field b, parseV4Field c, parseV4Field d with
    | some x, some y, some z, some w => some [x, y, z, w]
    | _, _, _, _ => none
  | _ => none

/-- Go `net.ParseIP` on a dotted-decimal input: the result is the 16-byte
IPv4-in-IPv6 representation. -/
def parseIPv4 (s : List Char) : Option (List Nat) :=
  (parseV4Raw s).map (v4InV6 ++ ·)

/-- Split at the first `::`, when present. -/
def findDoubleColon : List Char → Option (List Char × List Char)
  | [] => none
  | [_] => none
  | a :: b :: rest =>
    if a = ':' ∧ b = ':' then some ([], rest)
    else (findDoubleColon (b :: rest)).map (fun p => (a :: p.1, p.2))

/-- One 16-bit IPv6 group: one to four hex digits. -/
def parseHexGroup (s : List Char) : Option Nat :=
  if s = [] ∨ 4 < s.length then none
  else
    match s.mapM hexVal with
    | some ds => some (ds.foldl (fun a d => 16 * a + d) 0)
    | none => none

/-- The bytes of a colon-separated group list; the final group may be an
embedded dotted-decimal IPv4 address, as Go's IPv6 parser allows. -/
def groupsBytes : List (List Char) → Option (List Nat)
  | [] => some []
  | [g] =>
    if g.contains '.' then parseV4Raw g
    else (parseHexGroup g).map (fun v => [v / 256, v % 256])
  | g :: gs =>
    match parseHexGroup g, groupsBytes gs with
    | some v, some rest => some (v / 256 :: v % 256 :: rest)
    | _, _ => none

/-- The byte groups of one side of an IPv6 address (empty side = no
groups). -/
def sideBytes (s : List Char) : Option (List Nat) :=
  if s = [] then some [] else groupsBytes (splitChar ':' s)

/-- Model of Go's IPv6 parsing: hex groups separated by colons, at most one
`::` which must stand for at least one zero group, optional embedded
trailing IPv4; the result is exactly 16 bytes. -/
def parseIPv6 (s : List Char) : Option (List Nat) :=
  match findDoubleColon s with
  | none =>
    match sideBytes s with
    | some bs => if bs.length = 16 then some bs else none
    | none => none
  | some (l, r) =>
    match sideBytes l, sideBytes r with
    | some lb, some rb =>
      if lb.length + rb.length < 16 then
        some (lb ++ List.replicate (16 - lb.length - rb.length) 0 ++ rb)
      else none
    | _, _ => none

/-- Model of Go `net.ParseIP`: the first `.` or `:` decides between the
IPv4 and the IPv6 parser; an address with neither is invalid. -/
def parseIP (s : List Char) : Option (List Nat) :=
  match s.find? (fun c => c = '.' ∨ c = ':') with
  | some c => if c = '.' then parseIPv4 s else parseIPv6 s
  | none => none

/-- 16-bit groups of a 16-byte address. -/
def groups16 : List Nat → List Nat
  | a :: b :: rest => (a * 256 + b) :: groups16 rest
  | _ => []

/-- Length of the zero run at the head of a group list. -/
def zeroRunAt : List Nat → Nat
  | 0 :: rest => zeroRunAt rest + 1
  | _ => 0

/-- Longest (leftmost on ties) zero run: `(start, length)`. -/
def bestZeroRunAux : List Nat → Nat → Nat × Nat → Nat × Nat
  | [], _, best => best
  | gs@(_ :: rest), i, best =>
    let r := zeroRunAt gs
    bestZeroRunAux rest (i + 1) (if best.2 < r then (i, r) else best)

/-- The zero run Go's `IP.String` elides with `::` (it must span at least
two groups), if any. -/
def bestZeroRun (gs : List Nat) : Option (Nat × Nat) :=
  let best := bestZeroRunAux gs 0 (0, 0)
  if 2 ≤ best.2 then some best else none

/-- A 16-bit group in lowercase hex without leading zeros. -/
def hexNat (v : Nat) : List Char := Nat.toDigits 16 v

/-- Go's textual form of a 16-byte (non-IPv4-mapped) address. -/
def ipv6String (ip : List Nat) : List Char :=
  let gs := groups16 ip
  match bestZeroRun gs with
  | some (s, l) =>
    List.intercalate [':'] ((gs.take s).map hexNat) ++ ':' :: ':'
      :: List.intercalate [':'] ((gs.drop (s + l)).map hexNat)
  | none => List.intercalate [':'] (gs.map hexNat)

/-- Go `IP.To4`: the four IPv4 bytes of a 4-byte address or of a 16-byte
address carrying the IPv4-in-IPv6 tag. -/
def ip4 (ip : List Nat) : Option (List Nat) :=
  if ip.length = 4 then some ip
  else if ip.length = 16 ∧ ip.take 12 = v4InV6 then some (ip.drop 12)
  else none

/-- Dotted-decimal form of four bytes. -/
def dottedV4 : List Nat → List Char
  | [a, b, c, d] => byteDec a ++ '.' :: byteDec b ++ '.' :: byteDec c ++ '.' :: byteDec d
  | _ => []

/-- Each byte as two hex digits (Go's fallback for addresses of unexpected
length). -/
def bytesHex : List Nat → List Char
  | [] => []
  | b :: bs => byteHex b ++ bytesHex bs

/-- Model of Go `net.IP.String`: `"<nil>"` for an empty address, dotted
decimal for IPv4 (4-byte or tagged 16-byte), the condensed hex form for
other 16-byte addresses, and `"?"` plus hex for invalid lengths. -/
def ipString (ip : List Nat) : List Char :=
  if ip = [] then "<nil>".data
  else
    match ip4 ip with
    | some p4 => dottedV4 p4
    | none => if ip.length = 16 then ipv6String ip else '?' :: bytesHex ip

/-! ## The host entry codec (`pkg/model/static_dhcp_host.go`) -/

/-- `model.StaticDhcpHost`: a 6-byte hardware address, an IP address and a
hostname. -/
structure StaticDhcpHost where
  MacAddress : List Nat
  IPAddress : List Nat
  HostName : List Char
deriving DecidableEq

/-- The zero value `StaticDhcpHost{}`. -/
def zeroHost : StaticDhcpHost := ⟨[], [], []⟩

/-- A Go error value: the list of joined messages; `[]` is the nil error.
`errors.Join` is append (it flattens both the rendered text and the
`errors.Is` tree). -/
abbrev GoError := List (List Char)

/-- `fmt.Errorf(errInvalidDHCPHostConfig, config)`. -/
def errInvalidConfigMsg (config : List Char) : List Char :=
  "invalid DHCP host config: ".data ++ config

/-- `net.ParseMAC`'s `AddrError` rendered: `address <s>: invalid MAC address`. -/
def errInvalidMACMsg (mac : List Char) : List Char :=
  "address ".data ++ mac ++ ": invalid MAC address".data

/-- The `AddrError` built in `FromConfig` for an unparsable IP:
`address <s>: invalid IP address`. -/
def errInvalidIPMsg (ip : List Char) : List Char :=
  "address ".data ++ ip ++ ": invalid IP address".data

/-- `ErrDHCPHostMissingMACAddress`. -/
def errMissingMAC : List Char := "invalid DHCP host: missing MAC address".data

/-- `ErrDHCPHostMissingIPAddress`. -/
def errMissingIP : List Char := "invalid DHCP host: missing IP address".data

/-- `ErrDHCPHostMissingHostName`. -/
def errMissingHost : List Char := "invalid DHCP host: missing hostname".data

/-- Model of `fmt.Sscanf(token, "dhcp-host=%s", &mac)`: match the literal
format text, then `%s` skips spaces and reads a nonempty run of non-space
characters.  The error side carries the scan error's message (a literal
mismatch or hitting EOF while scanning the verb). -/
def sscanfDhcpHost (s : List Char) : Except (List Char) (List Char) :=
  match dropLit "dhcp-host=".data s with
  | none => .error "input does not match format".data
  | some rest =>
    let tok := (rest.dropWhile Char.isWhitespace).takeWhile (fun c => ¬ c.isWhitespace)
    if tok = [] then .error "unexpected EOF".data else .ok tok

/-- Model of `(*StaticDhcpHost).FromConfig`: split on commas (exactly three
tokens), scan the `dhcp-host=`-prefixed MAC token, then parse the MAC and
the IP — both assigned to the receiver unconditionally, with their errors
joined — and assign the hostname verbatim.  Returns the updated receiver
and the error. -/
def FromConfig (h : StaticDhcpHost) (config : List Char) : StaticDhcpHost × GoError :=
  match splitChar ',' config with
  | [t0, t1, t2] =>
    match sscanfDhcpHost t0 with
    | .error msg => (h, [errInvalidConfigMsg config, msg])
    | .ok mac =>
      let macParsed := parseMAC mac
      let macErr : GoError := if macParsed = none then [errInvalidMACMsg mac] else []
      let ipParsed := parseIP t1
      let err := if ipParsed = none then macErr ++ [errInvalidIPMsg t1] else macErr
      ({ MacAddress := macParsed.getD [], IPAddress := ipParsed.getD [], HostName := t2 }, err)
  | _ => (h, [errInvalidConfigMsg config])

/-- Model of `(*StaticDhcpHost).check`: joined missing-field errors, in the
order MAC, IP, hostname. -/
def check (h : StaticDhcpHost) : GoError :=
  let e1 : GoError := if macString h.MacAddress = [] then [errMissingMAC] else []
  let e2 : GoError := if ipString h.IPAddress = "<nil>".data then e1 ++ [errMissingIP] else e1
  if h.HostName = [] then e2 ++ [errMissingHost] else e2

/-- Model of `(*StaticDhcpHost).ToConfig`: `check`, then
`dhcp-host=<mac>,<ip>,<hostname>`; the string result is empty on error. -/
def ToConfig (h : StaticDhcpHost) : List Char × GoError :=
  let err := check h
  if err = [] then
    ("dhcp-host=".data ++ macString h.MacAddress ++ ','
      :: ipString h.IPAddress ++ ',' :: h.HostName, [])
  else ([], err)

/-- Model of `(*StaticDhcpHost).Equal`: byte-exact equality of the
addresses and equality of the hostnames. -/
def Equal (a other : StaticDhcpHost) : Bool :=
  a.MacAddress = other.MacAddress ∧ a.IPAddress = other.IPAddress ∧ a.HostName = other.HostName

/-! ## The repository read path (`hosts/hosts_service.go`) -/

/-- One line, as `bufio.ScanLines` delivers it: without a trailing
carriage return. -/
def dropCR (l : List Char) : List Char :=
  if l.getLast? = some '\r' then l.dropLast else l

/-- The lines `bufio.Scanner` with `bufio.ScanLines` produces: split on
newlines, no final empty token when the input ends with a newline, each
line stripped of a trailing `'\r'`. -/
def goLines (s : List Char) : List (List Char) :=
  if s = [] then []
  else
    let ls := splitChar '\n' s
    (if ls.getLast? = some [] then ls.dropLast else ls).map dropCR

/-- Error classification at the repository boundary (spec §7): a missing
file, a corrupt store (a prefixed line that fails to decode), or a codec
validation failure while encoding. -/
inductive RepoError where
  | notFound
  | corrupt (e : GoError)
  | validation (e : GoError)
deriving DecidableEq

/-- Model of `hostRepository.parse`: skip lines lacking the `dhcp-host=`
prefix; decode prefixed lines into a fresh record, aborting the whole read
on the first decode error. -/
def parseHosts : List (List Char) → Except GoError (List StaticDhcpHost)
  | [] => .ok []
  | l :: ls =>
    if hasPfx "dhcp-host=".data l then
      match FromConfig zeroHost l with
      | (h, []) => (parseHosts ls).map (h :: ·)
      | (_, e) => .error e
    else parseHosts ls

/-- The store file: `none` models a missing file, `some content` its
bytes. -/
abbrev StoreFile := Option (List Char)

/-- Model of the repository read (`Load`/`FindAll`): opening a missing
file fails with the not-found error; otherwise the whole file is parsed. -/
def findAll (file : StoreFile) : Except RepoError (List StaticDhcpHost) :=
  match file with
  | none => .error .notFound
  | some content =>
    match parseHosts (goLines content) with
    | .ok hs => .ok hs
    | .error e => .error (.corrupt e)

/-! ## Repository lookups and mutations

The current `pkg/host/repository.go` is not among the sources here (only
its tests and its mock are), so the keyed lookups and the mutations are
modelled from the spec (§4.2), with their outcomes pinned by the in-tree
repository tests. -/

/-- Modelled from the spec: `findByMac` (repository) — `findAll`, then a
linear scan for the first entry with the given MAC; absent is not an
error. -/
def findByMac (mac : List Nat) (file : StoreFile) :
    Except RepoError (Option StaticDhcpHost) :=
  match findAll file with
  | .error e => .error e
  | .ok hosts => .ok (hosts.find? (fun g => g.MacAddress = mac))

/-- Modelled from the spec: `findByIP` (repository). -/
def findByIP (ip : List Nat) (file : StoreFile) :
    Except RepoError (Option StaticDhcpHost) :=
  match findAll file with
  | .error e => .error e
  | .ok hosts => .ok (hosts.find? (fun g => g.IPAddress = ip))

/-- Modelled from the spec: the serialization step of every mutation — the
entry list encoded line by line and joined with single newlines, so there
is no trailing newline and an empty list serializes to an empty file. -/
def encodeLines : List StaticDhcpHost → Except GoError (List (List Char))
  | [] => .ok []
  | h :: hs =>
    match ToConfig h with
    | (s, []) => (encodeLines hs).map (s :: ·)
    | (_, e) => .error e

/-- Modelled from the spec: the serialized store is the encoded lines
joined with single newlines. -/
def serializeHosts (hs : List StaticDhcpHost) : Except GoError (List Char) :=
  (encodeLines hs).map (List.intercalate ['\n'])

/-- Modelled from the spec: `save` (repository) — read the whole store,
append the new entry, serialize and write once.  The new file content is
returned as the resulting store state. -/
def save (h : StaticDhcpHost) (file : StoreFile) : Except RepoError StoreFile :=
  match findAll file with
  | .error e => .error e
  | .ok hosts =>
    match serializeHosts (hosts ++ [h]) with
    | .ok content => .ok (some content)
    | .error e => .error (.validation e)

/-- Modelled from the spec: the common shape of the three deletes — remove
the first entry matching the predicate; when nothing matches, return no
entry, no error, and perform no write at all (the file bytes are the ones
passed in). -/
def deleteBy (p : StaticDhcpHost → Bool) (file : StoreFile) :
    Except RepoError (Option StaticDhcpHost × StoreFile) :=
  match findAll file with
  | .error e => .error e
  | .ok hosts =>
    match hosts.find? p with
    | none => .ok (none, file)
    | some h =>
      match serializeHosts (hosts.eraseP p) with
      | .ok content => .ok (some h, some content)
      | .error e => .error (.validation e)

/-- Modelled from the spec: `delete` (repository) — full-record match via
the codec's `Equal`. -/
def delete (host : StaticDhcpHost) (file : StoreFile) :
    Except RepoError (Option StaticDhcpHost × StoreFile) :=
  deleteBy (fun g => Equal g host) file

/-- Modelled from the spec: `deleteByMac` (repository). -/
def deleteByMac (mac : List Nat) (file : StoreFile) :
    Except RepoError (Option StaticDhcpHost × StoreFile) :=
  deleteBy (fun g => g.MacAddress = mac) file

/-- Modelled from the spec: `deleteByIP` (repository). -/
def deleteByIP (ip : List Nat) (file : StoreFile) :
    Except RepoError (Option StaticDhcpHost × StoreFile) :=
  deleteBy (fun g => g.IPAddress = ip) file

/-! ## The host service

The current `pkg/host/service.go` is likewise not among the sources (its
predecessor in `src/unnamed/part_002` shows the same control flow with
plain error strings; the in-tree service tests pin today's
`DuplicatedEntryError{Field, Value}`). -/

/-- A service-level error: a passed-through repository error, or the
duplicate-entry error carrying the conflicting field name and value. -/
inductive ServiceError where
  | repo (e : RepoError)
  | duplicated (Field : List Char) (Value : List Char)
deriving DecidableEq

/-- Modelled from the spec: `service.Insert` — look up by MAC first and
fail with the MAC duplicate error on a hit; only then look up by IP and
fail with the IP duplicate error on a hit; otherwise save.  The duplicate
error values are the textual forms of the inserted entry's addresses. -/
def Insert (host : StaticDhcpHost) (file : StoreFile) : Except ServiceError StoreFile :=
  match findByMac host.MacAddress file with
  | .error e => .error (.repo e)
  | .ok (some _) => .error (.duplicated "MAC".data (macString host.MacAddress))
  | .ok none =>
    match findByIP host.IPAddress file with
    | .error e => .error (.repo e)
    | .ok (some _) => .error (.duplicated "IP".data (ipString host.IPAddress))
    | .ok none =>
      match save host file with
      | .error e => .error (.repo e)
      | .ok f => .ok f

/-- Modelled from the spec: `service.Update` — unconditionally delete by
the new entry's MAC, then by its IP (no-ops when absent), then save; the
structure matches the predecessor implementation in
`src/unnamed/part_002`. -/
def Update (host : StaticDhcpHost) (file : StoreFile) : Except ServiceError StoreFile :=
  match deleteByMac host.MacAddress file with
  | .error e => .error (.repo e)
  | .ok (_, f1) =>
    match deleteByIP host.IPAddress f1 with
    | .error e => .error (.repo e)
    | .ok (_, f2) =>
      match save host f2 with
      | .error e => .error (.repo e)
      | .ok f => .ok f

/-! ## Validity predicates used by the universally quantified theorems -/

/-- A codec-valid entry: a 6-byte MAC, an IPv4 address in the 16-byte
normalized representation `net.ParseIP` produces, and a non-empty
comma-free hostname. -/
def ValidEntry (h : StaticDhcpHost) : Prop :=
  h.MacAddress.length = 6 ∧ (∀ b ∈ h.MacAddress, b < 256) ∧
  h.IPAddress.length = 16 ∧ h.IPAddress.take 12 = v4InV6 ∧
  (∀ b ∈ h.IPAddress, b < 256) ∧
  h.HostName ≠ [] ∧ ',' ∉ h.HostName

instance (h : StaticDhcpHost) : Decidable (ValidEntry h) := by
  unfold ValidEntry; infer_instance

/-- A store-valid entry: codec-valid, and its hostname survives the
line-oriented file format (no newline, no carriage return). -/
def WellFormedHost (h : StaticDhcpHost) : Prop :=
  ValidEntry h ∧ '\n' ∉ h.HostName ∧ '\r' ∉ h.HostName

instance (h : StaticDhcpHost) : Decidable (WellFormedHost h) := by
  unfold WellFormedHost; infer_instance

/-! ## Concrete fixtures (mirroring the repository's test data) -/

def fooHost : StaticDhcpHost :=
  ⟨[2, 4, 6, 0xaa, 0xbb, 0xcc], v4InV6 ++ [1, 1, 1, 1], "Foo".data⟩

def barHost : StaticDhcpHost :=
  ⟨[2, 4, 6, 0xdd, 0xee, 0xff], v4InV6 ++ [1, 1, 1, 2], "Bar".data⟩

/-- A host whose hostname contains a comma. -/
def commaHost : StaticDhcpHost :=
  ⟨[2, 4, 6, 0xaa, 0xbb, 0xcc], v4InV6 ++ [1, 1, 1, 1], "a,b".data⟩

def oneHostContent : List Char := "dhcp-host=02:04:06:aa:bb:cc,1.1.1.1,Foo".data

def twoHostsContent : List Char :=
  "dhcp-host=02:04:06:aa:bb:cc,1.1.1.1,Foo\ndhcp-host=02:04:06:dd:ee:ff,1.1.1.2,Bar".data

/-! ## Character-class facts -/

theorem hexDigit_mem (n : Nat) : hexDigit n ∈ hexTable := by
  unfold hexDigit
  by_cases h : n < 16
  · interval_cases n <;> decide
  · rw [List.getD_eq_default]
    · decide
    · have h16 : hexTable.length = 16 := by decide
      omega

theorem hexTable_props :
    ∀ c ∈ hexTable, ¬ c.isWhitespace ∧ c ≠ ',' ∧ c ≠ ':' ∧ c ≠ '.' ∧
      c ≠ '\n' ∧ c ≠ '\r' ∧ c ≠ '<' := by decide

theorem hexDigit_props (n : Nat) :
    ¬ (hexDigit n).isWhitespace ∧ hexDigit n ≠ ',' ∧ hexDigit n ≠ ':' ∧
      hexDigit n ≠ '.' ∧ hexDigit n ≠ '\n' ∧ hexDigit n ≠ '\r' ∧ hexDigit n ≠ '<' :=
  hexTable_props _ (hexDigit_mem n)

theorem hexDigit_isDigit : ∀ n < 10, (hexDigit n).isDigit = true := by decide

theorem hexDigit_dec_toNat : ∀ n < 10, (hexDigit n).toNat - '0'.toNat = n := by decide

theorem hexDigit_ne_zero_char : ∀ n < 16, n ≠ 0 → hexDigit n ≠ '0' := by decide

/-- Every character of `macString` is a hex digit or a colon. -/
theorem macString_chars (bs : List Nat) :
    ∀ c ∈ macString bs, c ∈ hexTable ∨ c = ':' := by
  have aux : ∀ (l : List Nat), ∀ c ∈ macStringAux l, c ∈ hexTable ∨ c = ':' := by
    intro l
    induction l with
    | nil => simp [macStringAux]
    | cons b t ih =>
      intro c hc
      simp only [macStringAux, byteHex, List.cons_append, List.mem_cons,
        List.mem_append] at hc
      rcases hc with h | h | h | h
      · exact Or.inr h
      · exact Or.inl (h ▸ hexDigit_mem _)
      · exact Or.inl (h ▸ hexDigit_mem _)
      · exact ih c (by simpa using h)
  intro c hc
  cases bs with
  | nil => simp [macString] at hc
  | cons b t =>
    simp only [macString, byteHex, List.cons_append, List.mem_cons] at hc
    rcases hc with h | h | h
    · exact Or.inl (h ▸ hexDigit_mem _)
    · exact Or.inl (h ▸ hexDigit_mem _)
    · exact aux t c (by simpa using h)

/-- A nonempty MAC renders to a nonempty string. -/
theorem macString_ne_nil (b : Nat) (t : List Nat) : macString (b :: t) ≠ [] := by
  simp [macString, byteHex]

/-- Every character of `byteDec b` (for byte-sized `b`) is a decimal
digit. -/
theorem byteDec_chars (b : Nat) (hb : b < 1000) :
    ∀ c ∈ byteDec b, c.isDigit = true ∧ c ∈ hexTable := by
  intro c hc
  unfold byteDec at hc
  have digit_of : ∀ n < 10, c = hexDigit n → c.isDigit = true ∧ c ∈ hexTable :=
    fun n hn he => he ▸ ⟨hexDigit_isDigit n hn, hexDigit_mem n⟩
  by_cases h1 : b < 10
  · simp only [h1, if_true, List.mem_singleton] at hc
    exact digit_of b h1 hc
  · by_cases h2 : b < 100
    · simp only [h1, h2, if_true, if_false, List.mem_cons, List.not_mem_nil, or_false] at hc
      rcases hc with h | h
      · exact digit_of (b / 10) (by omega) h
      · exact digit_of (b % 10) (by omega) h
    · simp only [h1, h2, if_false, List.mem_cons, List.not_mem_nil, or_false] at hc
      rcases hc with h | h | h
      · exact digit_of (b / 100) (by omega) h
      · exact digit_of (b / 10 % 10) (by omega) h
      · exact digit_of (b % 10) (by omega) h

theorem byteDec_ne_nil (b : Nat) : byteDec b ≠ [] := by
  unfold byteDec
  by_cases h1 : b < 10 <;> by_cases h2 : b < 100 <;> simp [h1, h2]

/-! ## Splitting and scanning lemmas -/

theorem splitChar_not_mem {c : Char} {a : List Char} (h : c ∉ a) :
    splitChar c a = [a] := by
  induction a with
  | nil => rfl
  | cons x xs ih =>
    simp only [List.mem_cons, not_or] at h
    unfold splitChar
    rw [if_neg (fun e => h.1 e.symm), ih h.2]

theorem splitChar_append {c : Char} (a rest : List Char) (h : c ∉ a) :
    splitChar c (a ++ c :: rest) = a :: splitChar c rest := by
  induction a with
  | nil => simp [splitChar]
  | cons x xs ih =>
    simp only [List.mem_cons, not_or] at h
    rw [List.cons_append]
    conv_lhs => rw [splitChar]
    rw [if_neg (fun e => h.1 e.symm), ih h.2]

/-- `splitChar` never returns the empty list. -/
theorem splitChar_ne_nil (c : Char) (s : List Char) : splitChar c s ≠ [] := by
  cases s with
  | nil => simp [splitChar]
  | cons x xs =>
    unfold splitChar
    by_cases h : x = c
    · simp [h]
    · rw [if_neg h]
      rcases he : splitChar c xs with _ | ⟨g, gs⟩ <;> simp

theorem dropLit_self (p s : List Char) : dropLit p (p ++ s) = some s := by
  induction p with
  | nil => rfl
  | cons x xs ih => simpa [dropLit] using ih

theorem takeWhile_all {f : Char → Bool} (l : List Char) (h : ∀ c ∈ l, f c = true) :
    l.takeWhile f = l := by
  induction l with
  | nil => rfl
  | cons x xs ih =>
    rw [List.takeWhile_cons, h x (by simp), ih (fun c hc => h c (by simp [hc]))]
    simp

/-- Scanning the `dhcp-host=%s` format against the prefix followed by a
nonempty whitespace-free token yields exactly that token. -/
theorem sscanf_exact (mac : List Char) (h1 : mac ≠ [])
    (h2 : ∀ c ∈ mac, c.isWhitespace = false) :
    sscanfDhcpHost ("dhcp-host=".data ++ mac) = .ok mac := by
  unfold sscanfDhcpHost
  rw [dropLit_self]
  have hdrop : mac.dropWhile Char.isWhitespace = mac := by
    cases mac with
    | nil => rfl
    | cons x xs =>
      rw [List.dropWhile_cons, h2 x (by simp)]
      simp
  have htake : mac.takeWhile (fun c => ¬ c.isWhitespace) = mac :=
    takeWhile_all mac (fun c hc => by simp [h2 c hc])
  simp only [hdrop, htake]
  rw [if_neg h1]

/-! ## MAC address round trip -/

theorem hexVal_hexDigit : ∀ n < 16, hexVal (hexDigit n) = some n := by decide

theorem hexByte_byteHex (b : Nat) (hb : b < 256) :
    hexByte (hexDigit (b / 16)) (hexDigit (b % 16)) = some b := by
  unfold hexByte
  rw [hexVal_hexDigit (b / 16) (by omega), hexVal_hexDigit (b % 16) (by omega)]
  simp only [Option.some.injEq]
  omega

theorem parseMAC_macString (bs : List Nat) (hlen : bs.length = 6)
    (hb : ∀ b ∈ bs, b < 256) : parseMAC (macString bs) = some bs := by
  match bs, hlen with
  | [b0, b1, b2, b3, b4, b5], _ =>
    have h0 := hb b0 (by simp)
    have h1 := hb b1 (by simp)
    have h2 := hb b2 (by simp)
    have h3 := hb b3 (by simp)
    have h4 := hb b4 (by simp)
    have h5 := hb b5 (by simp)
    simp only [macString, macStringAux, byteHex, List.cons_append, List.nil_append,
      List.append_nil]
    unfold parseMAC
    simp only [List.length_cons, List.length_nil, List.get?]
    norm_num
    simp only [hexPairsSep, if_pos rfl, hexByte_byteHex b0 h0, hexByte_byteHex b1 h1,
      hexByte_byteHex b2 h2, hexByte_byteHex b3 h3, hexByte_byteHex b4 h4,
      hexByte_byteHex b5 h5]
    simp

/-! ## IPv4 round trip -/

theorem hexDigit_toNat : ∀ n < 10, (hexDigit n).toNat = 48 + n := by decide

theorem parseV4Field_byteDec (b : Nat) (hb : b < 256) :
    parseV4Field (byteDec b) = some b := by
  have h48 : '0'.toNat = 48 := rfl
  by_cases h1 : b < 10
  · have hL : byteDec b = [hexDigit b] := by
      unfold byteDec; rw [if_pos h1]
    have hd : (hexDigit b).isDigit = true := hexDigit_isDigit _ h1
    have hdec : decValue [hexDigit b] = b := by
      simp only [decValue, List.foldl, h48, hexDigit_toNat b h1]
      omega
    rw [hL]
    unfold parseV4Field
    rw [if_neg (by simp [hd]), if_neg (by simp), if_neg (by rw [hdec]; omega), hdec]
  · by_cases h2 : b < 100
    · have hL : byteDec b = [hexDigit (b / 10), hexDigit (b % 10)] := by
        unfold byteDec; rw [if_neg h1, if_pos h2]
      have hd1 : (hexDigit (b / 10)).isDigit = true := hexDigit_isDigit _ (by omega)
      have hd0 : (hexDigit (b % 10)).isDigit = true := hexDigit_isDigit _ (by omega)
      have hdec : decValue [hexDigit (b / 10), hexDigit (b % 10)] = b := by
        simp only [decValue, List.foldl, h48, hexDigit_toNat (b / 10) (by omega),
          hexDigit_toNat (b % 10) (by omega)]
        omega
      have hz : hexDigit (b / 10) ≠ '0' :=
        hexDigit_ne_zero_char (b / 10) (by omega) (by omega)
      rw [hL]
      unfold parseV4Field
      rw [if_neg (by simp [hd1, hd0]), if_neg (by simp [hz]),
        if_neg (by rw [hdec]; omega), hdec]
    · have hL : byteDec b = [hexDigit (b / 100), hexDigit (b / 10 % 10), hexDigit (b % 10)] := by
        unfold byteDec; rw [if_neg h1, if_neg h2]
      have hd2 : (hexDigit (b / 100)).isDigit = true := hexDigit_isDigit _ (by omega)
      have hd1 : (hexDigit (b / 10 % 10)).isDigit = true := hexDigit_isDigit _ (by omega)
      have hd0 : (hexDigit (b % 10)).isDigit = true := hexDigit_isDigit _ (by omega)
      have hdec : decValue [hexDigit (b / 100), hexDigit (b / 10 % 10), hexDigit (b % 10)] = b := by
        simp only [decValue, List.foldl, h48, hexDigit_toNat (b / 100) (by omega),
          hexDigit_toNat (b / 10 % 10) (by omega), hexDigit_toNat (b % 10) (by omega)]
        omega
      have hz : hexDigit (b / 100) ≠ '0' :=
        hexDigit_ne_zero_char (b / 100) (by omega) (by omega)
      rw [hL]
      unfold parseV4Field
      rw [if_neg (by simp [hd2, hd1, hd0]), if_neg (by simp [hz]),
        if_neg (by rw [hdec]; omega), hdec]

theorem byteDec_no_sep (b : Nat) (hb : b < 256) :
    ∀ c ∈ byteDec b, c ≠ '.' ∧ c ≠ ',' ∧ c ≠ ':' ∧ c ≠ '\n' ∧ c ≠ '\r' ∧
      c.isWhitespace = false := by
  intro c hc
  have hmem := (byteDec_chars b (by omega) c hc).2
  have h := hexTable_props c hmem
  exact ⟨h.2.2.2.1, h.2.1, h.2.2.1, h.2.2.2.2.1, h.2.2.2.2.2.1,
    Bool.eq_false_iff.mpr h.1⟩

theorem find?_skip {p : Char → Bool} (l rest : List Char)
    (h : ∀ c ∈ l, p c = false) : (l ++ rest).find? p = rest.find? p := by
  induction l with
  | nil => rfl
  | cons x xs ih =>
    rw [List.cons_append, List.find?_cons, h x (by simp)]
    exact ih (fun c hc => h c (by simp [hc]))

theorem dottedV4_parseIP (a b c d : Nat) (ha : a < 256) (hb : b < 256)
    (hc : c < 256) (hd : d < 256) :
    parseIP (dottedV4 [a, b, c, d]) = some (v4InV6 ++ [a, b, c, d]) := by
  have hdot : ∀ x, x < 256 → '.' ∉ byteDec x :=
    fun x hx he => ((byteDec_no_sep x hx '.' he).1 rfl)
  have hd4 : dottedV4 [a, b, c, d] =
      byteDec a ++ '.' :: (byteDec b ++ '.' :: (byteDec c ++ '.' :: byteDec d)) := by
    simp [dottedV4]
  have hsplit : splitChar '.' (dottedV4 [a, b, c, d]) =
      [byteDec a, byteDec b, byteDec c, byteDec d] := by
    rw [hd4, splitChar_append _ _ (hdot a ha), splitChar_append _ _ (hdot b hb),
      splitChar_append _ _ (hdot c hc), splitChar_not_mem (hdot d hd)]
  have hnodot : ∀ ch ∈ byteDec a, decide (ch = '.' ∨ ch = ':') = false := by
    intro ch hch
    have h := byteDec_no_sep a ha ch hch
    simp [h.1, h.2.2.1]
  have hfind : (dottedV4 [a, b, c, d]).find? (fun ch => ch = '.' ∨ ch = ':') = some '.' := by
    rw [hd4, find?_skip _ _ hnodot, List.find?_cons]
    simp
  unfold parseIP
  rw [hfind]
  simp only [if_pos rfl]
  unfold parseIPv4 parseV4Raw
  rw [hsplit]
  simp only [parseV4Field_byteDec a ha, parseV4Field_byteDec b hb,
    parseV4Field_byteDec c hc, parseV4Field_byteDec d hd]
  rfl

/-! ## Codec round trip -/

theorem pfx_chars :
    ∀ c ∈ "dhcp-host=".data, c ≠ ',' ∧ c.isWhitespace = false ∧ c ≠ '\n' ∧ c ≠ '\r' := by
  decide

theorem validEntry_ip (h : StaticDhcpHost) (hv : ValidEntry h) :
    ∃ a b c d, a < 256 ∧ b < 256 ∧ c < 256 ∧ d < 256 ∧
      h.IPAddress = v4InV6 ++ [a, b, c, d] := by
  obtain ⟨-, -, hlen, htake, hlt, -, -⟩ := hv
  have hsplit := (List.take_append_drop 12 h.IPAddress).symm
  have hdlen : (h.IPAddress.drop 12).length = 4 := by
    rw [List.length_drop, hlen]
  have hdsub : ∀ x ∈ h.IPAddress.drop 12, x < 256 :=
    fun x hx => hlt x ((List.drop_sublist 12 h.IPAddress).mem hx)
  rcases hd : h.IPAddress.drop 12 with _ | ⟨a, t1⟩
  · rw [hd] at hdlen; simp at hdlen
  rcases t1 with _ | ⟨b, t2⟩
  · rw [hd] at hdlen; simp at hdlen
  rcases t2 with _ | ⟨c, t3⟩
  · rw [hd] at hdlen; simp at hdlen
  rcases t3 with _ | ⟨d, t4⟩
  · rw [hd] at hdlen; simp at hdlen
  rcases t4 with _ | ⟨e, t5⟩
  · refine ⟨a, b, c, d, ?_, ?_, ?_, ?_, ?_⟩
    · exact hdsub a (by rw [hd]; simp)
    · exact hdsub b (by rw [hd]; simp)
    · exact hdsub c (by rw [hd]; simp)
    · exact hdsub d (by rw [hd]; simp)
    · rw [hsplit, htake, hd]
  · rw [hd] at hdlen; simp at hdlen

theorem ipString_v4 (a b c d : Nat) :
    ipString (v4InV6 ++ [a, b, c, d]) = dottedV4 [a, b, c, d] := by
  simp [ipString, ip4, v4InV6, dottedV4]

theorem dottedV4_chars (a b c d : Nat) (ha : a < 256) (hb : b < 256)
    (hc : c < 256) (hd : d < 256) :
    ∀ ch ∈ dottedV4 [a, b, c, d], ch = '.' ∨ ch ∈ hexTable := by
  intro ch hch
  have hd4 : dottedV4 [a, b, c, d] =
      byteDec a ++ '.' :: (byteDec b ++ '.' :: (byteDec c ++ '.' :: byteDec d)) := by
    simp [dottedV4]
  rw [hd4] at hch
  simp only [List.mem_append, List.mem_cons] at hch
  rcases hch with h | h | h | h | h | h | h
  · exact Or.inr (byteDec_chars a (by omega) ch h).2
  · exact Or.inl h
  · exact Or.inr (byteDec_chars b (by omega) ch h).2
  · exact Or.inl h
  · exact Or.inr (byteDec_chars c (by omega) ch h).2
  · exact Or.inl h
  · exact Or.inr (byteDec_chars d (by omega) ch h).2

theorem check_valid (h : StaticDhcpHost) (hv : ValidEntry h) : check h = [] := by
  obtain ⟨a, b, c, d, ha, hb, hc, hd, hip⟩ := validEntry_ip h hv
  obtain ⟨hml, hmb, -, -, -, hhn, -⟩ := hv
  have hmac : macString h.MacAddress ≠ [] := by
    rcases hm : h.MacAddress with _ | ⟨x, t⟩
    · rw [hm] at hml; simp at hml
    · exact macString_ne_nil x t
  have hipne : ipString h.IPAddress ≠ "<nil>".data := by
    rw [hip, ipString_v4]
    obtain ⟨x, xs, hbd⟩ : ∃ x xs, byteDec a = x :: xs := by
      rcases hx : byteDec a with _ | ⟨x, xs⟩
      · exact absurd hx (byteDec_ne_nil a)
      · exact ⟨x, xs, rfl⟩
    have hx : x ∈ hexTable := (byteDec_chars a (by omega) x (by rw [hbd]; simp)).2
    have hd4 : dottedV4 [a, b, c, d] =
        byteDec a ++ '.' :: (byteDec b ++ '.' :: (byteDec c ++ '.' :: byteDec d)) := by
      simp [dottedV4]
    rw [hd4, hbd]
    intro heq
    have : x = '<' := by
      have := congrArg List.head? heq
      simpa using this
    exact (hexTable_props x hx).2.2.2.2.2.2 this
  unfold check
  simp only [if_neg hmac, if_neg hipne, if_neg hhn]

theorem ToConfig_valid (h : StaticDhcpHost) (hv : ValidEntry h) :
    ToConfig h = ("dhcp-host=".data ++ macString h.MacAddress ++ ','
      :: ipString h.IPAddress ++ ',' :: h.HostName, []) := by
  unfold ToConfig
  rw [check_valid h hv]
  simp

theorem FromConfig_ToConfig (h h0 : StaticDhcpHost) (hv : ValidEntry h) :
    FromConfig h0 (ToConfig h).1 = (h, []) := by
  obtain ⟨a, b, c, d, ha, hb, hc, hd, hip⟩ := validEntry_ip h hv
  have hv' := hv
  obtain ⟨hml, hmb, -, -, -, hhn, hhc⟩ := hv'
  have hmsp := macString_chars h.MacAddress
  have hmsne : macString h.MacAddress ≠ [] := by
    rcases hm : h.MacAddress with _ | ⟨x, t⟩
    · rw [hm] at hml; simp at hml
    · exact macString_ne_nil x t
  have hmsnws : ∀ c ∈ macString h.MacAddress, c.isWhitespace = false := by
    intro c hcm
    rcases hmsp c hcm with hmem | hcol
    · exact Bool.eq_false_iff.mpr (hexTable_props c hmem).1
    · rw [hcol]; decide
  have hnc1 : ',' ∉ "dhcp-host=".data ++ macString h.MacAddress := by
    intro hmem
    rcases List.mem_append.mp hmem with hmem | hmem
    · exact (pfx_chars ',' hmem).1 rfl
    · rcases hmsp ',' hmem with hmem | hcol
      · exact (hexTable_props ',' hmem).2.1 rfl
      · exact absurd hcol (by decide)
  have hnc2 : ',' ∉ dottedV4 [a, b, c, d] := by
    intro hmem
    rcases dottedV4_chars a b c d ha hb hc hd ',' hmem with hdot | hmem
    · exact absurd hdot (by decide)
    · exact (hexTable_props ',' hmem).2.1 rfl
  have hline : (ToConfig h).1 = ("dhcp-host=".data ++ macString h.MacAddress) ++ ','
      :: (dottedV4 [a, b, c, d] ++ ',' :: h.HostName) := by
    rw [ToConfig_valid h hv, hip, ipString_v4]
    simp
  have hsplit : splitChar ',' (ToConfig h).1 =
      ["dhcp-host=".data ++ macString h.MacAddress, dottedV4 [a, b, c, d], h.HostName] := by
    rw [hline, splitChar_append _ _ hnc1, splitChar_append _ _ hnc2,
      splitChar_not_mem hhc]
  unfold FromConfig
  rw [hsplit]
  simp only [sscanf_exact (macString h.MacAddress) hmsne hmsnws,
    parseMAC_macString h.MacAddress hml hmb, dottedV4_parseIP a b c d ha hb hc hd]
  simp only [Option.getD_some, ← hip]
  simp

/-! ## Store serialization round trip -/

theorem mem_of_getLast?_some {α : Type} {l : List α} {x : α}
    (h : l.getLast? = some x) : x ∈ l := by
  obtain ⟨hne, hx⟩ := List.mem_getLast?_eq_getLast (Option.mem_def.mpr h)
  exact hx ▸ List.getLast_mem hne

theorem intercalate_single (sep a : List Char) : List.intercalate sep [a] = a := by
  simp [List.intercalate]

theorem intercalate_cons₂ (sep a b : List Char) (t : List (List Char)) :
    List.intercalate sep (a :: b :: t) = a ++ sep ++ List.intercalate sep (b :: t) := by
  simp [List.intercalate, List.intersperse]

/-- The characters of the encoded line of a well-formed entry never
include a newline or a carriage return; the line is nonempty and carries
the `dhcp-host=` prefix. -/
theorem encLine_facts (h : StaticDhcpHost) (hwf : WellFormedHost h) :
    (ToConfig h).2 = [] ∧ (ToConfig h).1 ≠ [] ∧ '\n' ∉ (ToConfig h).1 ∧
      '\r' ∉ (ToConfig h).1 ∧ hasPfx "dhcp-host=".data (ToConfig h).1 = true := by
  obtain ⟨hv, hnl, hcr⟩ := hwf
  obtain ⟨a, b, c, d, ha, hb, hc, hd, hip⟩ := validEntry_ip h hv
  have hto := ToConfig_valid h hv
  have hl1 : (ToConfig h).1 = "dhcp-host=".data ++ macString h.MacAddress ++ ','
      :: ipString h.IPAddress ++ ',' :: h.HostName := by rw [hto]
  have hnotin : ∀ x : Char, x ≠ ',' → x ≠ ':' → x ≠ '.' → (x ∈ hexTable → False) →
      x ∉ "dhcp-host=".data → x ∉ h.HostName → x ∉ (ToConfig h).1 := by
    intro x hxc hxcol hxdot hxh hxp hxn hmem
    rw [hl1] at hmem
    rcases List.mem_append.mp hmem with hm | hm
    · rcases List.mem_append.mp hm with hm | hm
      · rcases List.mem_append.mp hm with hm | hm
        · exact hxp hm
        · rcases macString_chars h.MacAddress x hm with hm | hm
          · exact hxh hm
          · exact hxcol hm
      · rcases List.mem_cons.mp hm with hm | hm
        · exact hxc hm
        · rw [hip, ipString_v4] at hm
          rcases dottedV4_chars a b c d ha hb hc hd x hm with hm | hm
          · exact hxdot hm
          · exact hxh hm
    · rcases List.mem_cons.mp hm with hm | hm
      · exact hxc hm
      · exact hxn hm
  refine ⟨by rw [hto], ?_, ?_, ?_, ?_⟩
  · rw [hto]; simp
  · exact hnotin '\n' (by decide) (by decide) (by decide)
      (fun hm => (hexTable_props '\n' hm).2.2.2.2.1 rfl) (by decide) hnl
  · exact hnotin '\r' (by decide) (by decide) (by decide)
      (fun hm => (hexTable_props '\r' hm).2.2.2.2.2.1 rfl) (by decide) hcr
  · rw [hto]; simp [hasPfx]

theorem map_self {α : Type} (f : α → α) (l : List α) (h : ∀ x ∈ l, f x = x) :
    l.map f = l := by
  induction l with
  | nil => rfl
  | cons x xs ih =>
    rw [List.map_cons, h x (by simp), ih (fun y hy => h y (by simp [hy]))]

theorem splitChar_nl_intercalate (lines : List (List Char)) (hl : lines ≠ [])
    (hnl : ∀ l ∈ lines, '\n' ∉ l) :
    splitChar '\n' (List.intercalate ['\n'] lines) = lines := by
  induction lines with
  | nil => exact absurd rfl hl
  | cons a t ih =>
    cases t with
    | nil => rw [intercalate_single, splitChar_not_mem (hnl a (by simp))]
    | cons b t' =>
      rw [intercalate_cons₂]
      have : a ++ ['\n'] ++ List.intercalate ['\n'] (b :: t') =
          a ++ '\n' :: List.intercalate ['\n'] (b :: t') := by simp
      rw [this, splitChar_append _ _ (hnl a (by simp)),
        ih (by simp) (fun l hm => hnl l (by simp [hm]))]

theorem goLines_intercalate (lines : List (List Char))
    (hne : ∀ l ∈ lines, l ≠ []) (hnl : ∀ l ∈ lines, '\n' ∉ l)
    (hcr : ∀ l ∈ lines, '\r' ∉ l) :
    goLines (List.intercalate ['\n'] lines) = lines := by
  cases lines with
  | nil => simp [List.intercalate, goLines]
  | cons a t =>
    have hs : List.intercalate ['\n'] (a :: t) ≠ [] := by
      rcases ha : a with _ | ⟨x, xs⟩
      · exact absurd ha (hne a (by simp))
      · cases t with
        | nil => rw [intercalate_single]; simp
        | cons b t' => rw [intercalate_cons₂]; simp
    have hsplit := splitChar_nl_intercalate (a :: t) (by simp) hnl
    have hlast : (a :: t : List (List Char)).getLast? ≠ some [] := fun hgl =>
      hne [] (mem_of_getLast?_some hgl) rfl
    unfold goLines
    rw [if_neg hs]
    simp only [hsplit, if_neg hlast]
    exact map_self _ _ (fun l hm => by
      unfold dropCR
      rw [if_neg (fun hgl => hcr l hm (mem_of_getLast?_some hgl))])

theorem parseHosts_encoded (hs : List StaticDhcpHost)
    (hwf : ∀ h ∈ hs, WellFormedHost h) :
    parseHosts (hs.map (fun h => (ToConfig h).1)) = .ok hs := by
  induction hs with
  | nil => rfl
  | cons h t ih =>
    obtain ⟨henc, -, -, -, hpfx⟩ := encLine_facts h (hwf h (by simp))
    rw [List.map_cons]
    unfold parseHosts
    rw [hpfx]
    have hfc : FromConfig zeroHost (ToConfig h).1 = (h, []) :=
      FromConfig_ToConfig h zeroHost (hwf h (by simp)).1
    rw [if_pos rfl, hfc, ih (fun g hg => hwf g (by simp [hg]))]
    rfl

theorem encodeLines_wf (hs : List StaticDhcpHost)
    (hwf : ∀ h ∈ hs, WellFormedHost h) :
    encodeLines hs = .ok (hs.map (fun h => (ToConfig h).1)) := by
  induction hs with
  | nil => rfl
  | cons h t ih =>
    unfold encodeLines
    have hto := ToConfig_valid h (hwf h (by simp)).1
    rw [hto]
    rw [ih (fun g hg => hwf g (by simp [hg]))]
    simp [Except.map, hto]

/-- Serialization of a well-formed entry list succeeds and reading the
serialized content back recovers exactly that list. -/
theorem serialize_findAll (hs : List StaticDhcpHost)
    (hwf : ∀ h ∈ hs, WellFormedHost h) :
    serializeHosts hs = .ok (List.intercalate ['\n'] (hs.map (fun h => (ToConfig h).1))) ∧
    findAll (some (List.intercalate ['\n'] (hs.map (fun h => (ToConfig h).1)))) = .ok hs := by
  constructor
  · unfold serializeHosts
    rw [encodeLines_wf hs hwf]
    rfl
  · have hlines : goLines (List.intercalate ['\n'] (hs.map (fun h => (ToConfig h).1))) =
        hs.map (fun h => (ToConfig h).1) := by
      apply goLines_intercalate
      · intro l hm
        obtain ⟨g, hg, hgl⟩ := List.mem_map.mp hm
        exact hgl ▸ (encLine_facts g (hwf g hg)).2.1
      · intro l hm
        obtain ⟨g, hg, hgl⟩ := List.mem_map.mp hm
        exact hgl ▸ (encLine_facts g (hwf g hg)).2.2.1
      · intro l hm
        obtain ⟨g, hg, hgl⟩ := List.mem_map.mp hm
        exact hgl ▸ (encLine_facts g (hwf g hg)).2.2.2.1
    simp only [findAll, hlines, parseHosts_encoded hs hwf]

/-! ## Repository mutation behavior -/

/-- Erasing the first key match from a list whose keys are distinct leaves
no entry with that key behind. -/
theorem mem_eraseP_key {k : List Nat} (key : StaticDhcpHost → List Nat) :
    ∀ (l : List StaticDhcpHost), (l.map key).Nodup →
      ∀ h ∈ l.eraseP (fun g => key g = k), key h ≠ k := by
  intro l
  induction l with
  | nil => simp [List.eraseP]
  | cons a t ih =>
    intro hnd h hmem
    rw [List.map_cons, List.nodup_cons] at hnd
    rw [List.eraseP_cons] at hmem
    by_cases hk : key a = k
    · simp only [hk, decide_True, cond_true] at hmem
      intro he
      exact hnd.1 (hk ▸ he ▸ List.mem_map_of_mem key hmem)
    · rw [decide_eq_false hk] at hmem
      simp only [cond_false] at hmem
      rcases List.mem_cons.mp hmem with hm | hm
      · exact hm ▸ hk
      · exact ih hnd.2 h hm

/-- Behavior of the modelled `deleteBy` on a well-formed store: the first
match (if any) is removed and the new content reads back as the erased
list; with no match the file is returned untouched. -/
theorem deleteBy_ok (p : StaticDhcpHost → Bool) (file : StoreFile)
    (hosts : List StaticDhcpHost) (hfa : findAll file = .ok hosts)
    (hwf : ∀ h ∈ hosts, WellFormedHost h) :
    ∃ file', deleteBy p file = .ok (hosts.find? p, file') ∧
      findAll file' = .ok (hosts.eraseP p) := by
  have hwf' : ∀ h ∈ hosts.eraseP p, WellFormedHost h :=
    fun h hm => hwf h (List.mem_of_mem_eraseP hm)
  obtain ⟨hser, hread⟩ := serialize_findAll (hosts.eraseP p) hwf'
  rcases hf : hosts.find? p with _ | h
  · refine ⟨file, ?_, ?_⟩
    · unfold deleteBy
      simp only [hfa, hf]
    · rw [List.eraseP_of_forall_not (fun a ha hpa => (List.find?_eq_none.mp hf) a ha hpa)]
      exact hfa
  · refine ⟨some (List.intercalate ['\n'] ((hosts.eraseP p).map (fun g => (ToConfig g).1))), ?_, hread⟩
    unfold deleteBy
    simp only [hfa, hf, hser]

/-- Behavior of the modelled `save` on a well-formed store. -/
theorem save_ok (h : StaticDhcpHost) (file : StoreFile) (hosts : List StaticDhcpHost)
    (hfa : findAll file = .ok hosts) (hwf : ∀ g ∈ hosts, WellFormedHost g)
    (hwfh : WellFormedHost h) :
    save h file =
      .ok (some (List.intercalate ['\n'] ((hosts ++ [h]).map (fun g => (ToConfig g).1)))) ∧
    findAll (some (List.intercalate ['\n'] ((hosts ++ [h]).map (fun g => (ToConfig g).1)))) =
      .ok (hosts ++ [h]) := by
  have hwf2 : ∀ g ∈ hosts ++ [h], WellFormedHost g := by
    intro g hg
    rcases List.mem_append.mp hg with hg | hg
    · exact hwf g hg
    · rw [List.mem_singleton.mp hg]; exact hwfh
  obtain ⟨hser, hread⟩ := serialize_findAll (hosts ++ [h]) hwf2
  exact ⟨by unfold save; simp only [hfa, hser], hread⟩

theorem intercalate_ne_nil (a : List Char) (t : List (List Char)) (ha : a ≠ []) :
    List.intercalate ['\n'] (a :: t) ≠ [] := by
  cases t with
  | nil => rw [intercalate_single]; exact ha
  | cons b t' =>
    rw [intercalate_cons₂]
    rcases hx : a with _ | ⟨x, xs⟩
    · exact absurd hx ha
    · simp

/-- A newline-joined list of nonempty newline-free lines neither starts
nor ends with a newline. -/
theorem intercalate_ends (lines : List (List Char)) (h0 : lines ≠ [])
    (hne : ∀ l ∈ lines, l ≠ []) (hnl : ∀ l ∈ lines, '\n' ∉ l) :
    (List.intercalate ['\n'] lines).head? ≠ some '\n' ∧
    (List.intercalate ['\n'] lines).getLast? ≠ some '\n' := by
  induction lines with
  | nil => exact absurd rfl h0
  | cons l t ih =>
    cases t with
    | nil =>
      rw [intercalate_single]
      constructor
      · intro hh
        rcases hx : l with _ | ⟨x, xs⟩
        · rw [hx] at hh; simp at hh
        · rw [hx] at hh
          simp only [List.head?_cons, Option.some.injEq] at hh
          exact hnl l (by simp) (by rw [hx, hh]; simp)
      · intro hh
        exact hnl l (by simp) (mem_of_getLast?_some hh)
    | cons l' t' =>
      rw [intercalate_cons₂]
      have hI : List.intercalate ['\n'] (l' :: t') ≠ [] :=
        intercalate_ne_nil l' t' (hne l' (by simp))
      have hih := ih (by simp) (fun x hx => hne x (by simp [hx]))
        (fun x hx => hnl x (by simp [hx]))
      constructor
      · intro hh
        rcases hx : l with _ | ⟨x, xs⟩
        · exact absurd hx (hne l (by simp))
        · rw [hx] at hh
          simp only [List.cons_append, List.head?_cons, Option.some.injEq] at hh
          exact hnl l (by simp) (by rw [hx, hh]; simp)
      · rw [List.append_assoc, List.getLast?_append_of_ne_nil _ (by simp [hI])]
        rw [List.getLast?_append_of_ne_nil _ hI]
        exact hih.2

/-- The read loop returns the empty collection when no line carries the
prefix. -/
theorem parseHosts_skips (ls : List (List Char))
    (h : ∀ l ∈ ls, hasPfx "dhcp-host=".data l = false) : parseHosts ls = .ok [] := by
  induction ls with
  | nil => rfl
  | cons a t ih =>
    unfold parseHosts
    rw [h a (by simp)]
    simp only [Bool.false_eq_true, if_false]
    exact ih (fun l hl => h l (by simp [hl]))

/-- The read loop aborts with an error as soon as some prefixed line fails
to decode. -/
theorem parseHosts_abort (ls : List (List Char))
    (h : ∃ l ∈ ls, hasPfx "dhcp-host=".data l = true ∧ (FromConfig zeroHost l).2 ≠ []) :
    ∃ e, parseHosts ls = .error e := by
  induction ls with
  | nil => simp at h
  | cons a t ih =>
    obtain ⟨l, hl, hpfx, herr⟩ := h
    by_cases hpa : hasPfx "dhcp-host=".data a = true
    · rcases hfc : FromConfig zeroHost a with ⟨h', e'⟩
      cases e' with
      | nil =>
        have hlt : l ∈ t := by
          rcases List.mem_cons.mp hl with rfl | hlt
          · rw [hfc] at herr; simp at herr
          · exact hlt
        obtain ⟨e, he⟩ := ih ⟨l, hlt, hpfx, herr⟩
        refine ⟨e, ?_⟩
        unfold parseHosts
        simp only [hpa, if_true, hfc, he]
        rfl
      | cons m ms =>
        refine ⟨m :: ms, ?_⟩
        unfold parseHosts
        simp only [hpa, if_true, hfc]
    · have hlt : l ∈ t := by
        rcases List.mem_cons.mp hl with rfl | hlt
        · exact absurd hpfx hpa
        · exact hlt
      obtain ⟨e, he⟩ := ih ⟨l, hlt, hpfx, herr⟩
      refine ⟨e, ?_⟩
      unfold parseHosts
      simp only [hpa, Bool.false_eq_true, if_false]
      exact he

/-! ## The claims -/

/-- C1: whenever the store already holds an entry with the inserted
entry's MAC, `Insert` fails with the duplicate-entry error naming field
`"MAC"` and the textual form of that MAC — regardless of the entry's IP or
hostname (the IP lookup is reached only when the MAC lookup found
nothing, so an entry duplicating both keys reports the MAC conflict). -/
theorem C1_insert_duplicate_mac_wins (e : StaticDhcpHost) (file : StoreFile)
    (hosts : List StaticDhcpHost) (hfa : findAll file = .ok hosts)
    (hdup : ∃ b ∈ hosts, b.MacAddress = e.MacAddress) :
    Insert e file = .error (.duplicated "MAC".data (macString e.MacAddress)) := by
  obtain ⟨b, hb, hbm⟩ := hdup
  have hx : ∃ x, hosts.find? (fun g => g.MacAddress = e.MacAddress) = some x := by
    rw [← Option.isSome_iff_exists, List.find?_isSome]
    exact ⟨b, hb, by simp [hbm]⟩
  obtain ⟨x, hx⟩ := hx
  unfold Insert findByMac
  simp only [hfa, hx]

/-- C1 witness: a two-entry store; the inserted entry duplicates the first
entry's MAC and the second entry's IP, and the reported conflict is the
MAC one. -/
theorem C1_insert_duplicate_mac_wins_witness :
    findAll (some twoHostsContent) = .ok [fooHost, barHost] ∧
    (∃ b ∈ [fooHost, barHost],
      b.MacAddress = [2, 4, 6, 0xaa, 0xbb, 0xcc]) ∧
    (∃ b ∈ [fooHost, barHost],
      b.IPAddress = v4InV6 ++ [1, 1, 1, 2]) ∧
    Insert ⟨[2, 4, 6, 0xaa, 0xbb, 0xcc], v4InV6 ++ [1, 1, 1, 2], "New".data⟩
        (some twoHostsContent) =
      .error (.duplicated "MAC".data (macString [2, 4, 6, 0xaa, 0xbb, 0xcc])) :=
  ⟨rfl, by decide, by decide,
    C1_insert_duplicate_mac_wins
      ⟨[2, 4, 6, 0xaa, 0xbb, 0xcc], v4InV6 ++ [1, 1, 1, 2], "New".data⟩
      (some twoHostsContent) [fooHost, barHost] rfl (by decide)⟩

/-- C2: `Update` is an upsert.  It never returns a duplicate-entry error,
and on a well-formed store with unique keys it removes whatever entry held
the new entry's MAC and whatever entry held its IP (silently deleting an
unrelated entry that held the IP), then writes the new record: afterwards
exactly the new record holds either key. -/
theorem C2_update_upsert (e : StaticDhcpHost) (file : StoreFile)
    (hosts : List StaticDhcpHost) (hfa : findAll file = .ok hosts)
    (hwf : ∀ h ∈ hosts, WellFormedHost h) (hwfe : WellFormedHost e)
    (hmacs : (hosts.map (fun g => g.MacAddress)).Nodup)
    (hips : (hosts.map (fun g => g.IPAddress)).Nodup) :
    (∀ (g : StaticDhcpHost) (f : StoreFile) (fld v : List Char),
      Update g f ≠ .error (.duplicated fld v)) ∧
    ∃ content hosts', Update e file = .ok (some content) ∧
      findAll (some content) = .ok hosts' ∧ e ∈ hosts' ∧
      ∀ h ∈ hosts', (h.MacAddress = e.MacAddress ∨ h.IPAddress = e.IPAddress) → h = e := by
  constructor
  · intro g f fld v heq
    unfold Update at heq
    rcases h1 : deleteByMac g.MacAddress f with e1 | ⟨r1v, f1⟩
    · simp only [h1] at heq
      simp at heq
    · simp only [h1] at heq
      rcases h2 : deleteByIP g.IPAddress f1 with e2 | ⟨r2v, f2⟩
      · simp only [h2] at heq
        simp at heq
      · simp only [h2] at heq
        rcases h3 : save g f2 with e3 | f3
        · simp only [h3] at heq
          simp at heq
        · simp only [h3] at heq
          simp at heq
  · obtain ⟨f1, hd1, hr1⟩ :=
      deleteBy_ok (fun g => g.MacAddress = e.MacAddress) file hosts hfa hwf
    have hwf1 : ∀ h ∈ hosts.eraseP (fun g => g.MacAddress = e.MacAddress),
        WellFormedHost h := fun h hm => hwf h (List.mem_of_mem_eraseP hm)
    obtain ⟨f2, hd2, hr2⟩ :=
      deleteBy_ok (fun g => g.IPAddress = e.IPAddress) f1 _ hr1 hwf1
    have hwf2 : ∀ h ∈ (hosts.eraseP (fun g => g.MacAddress = e.MacAddress)).eraseP
        (fun g => g.IPAddress = e.IPAddress), WellFormedHost h :=
      fun h hm => hwf1 h (List.mem_of_mem_eraseP hm)
    obtain ⟨hsave, hread⟩ := save_ok e f2 _ hr2 hwf2 hwfe
    have hd1' : deleteByMac e.MacAddress file =
        .ok (hosts.find? (fun g => g.MacAddress = e.MacAddress), f1) := hd1
    have hd2' : deleteByIP e.IPAddress f1 =
        .ok ((hosts.eraseP (fun g => g.MacAddress = e.MacAddress)).find?
          (fun g => g.IPAddress = e.IPAddress), f2) := hd2
    refine ⟨_, _, ?_, hread, by simp, ?_⟩
    · unfold Update
      simp only [hd1', hd2', hsave]
    · intro h hm hkey
      rcases List.mem_append.mp hm with hm | hm
      · exfalso
        rcases hkey with hk | hk
        · exact mem_eraseP_key (fun g => g.MacAddress) hosts hmacs h
            (List.mem_of_mem_eraseP hm) hk
        · have hips1 : ((hosts.eraseP (fun g => g.MacAddress = e.MacAddress)).map
              (fun g => g.IPAddress)).Nodup :=
            hips.sublist ((List.eraseP_sublist hosts).map (fun g => g.IPAddress))
          exact mem_eraseP_key (fun g => g.IPAddress) _ hips1 h hm hk
      · exact List.mem_singleton.mp hm

/-- C2 witness: the spec's own scenario — a Foo/Bar store; the new Foo
keeps Foo's MAC and takes Bar's IP; the update succeeds and afterwards
exactly the new record holds either key. -/
theorem C2_update_upsert_witness :
    findAll (some twoHostsContent) = .ok [fooHost, barHost] ∧
    WellFormedHost ⟨[2, 4, 6, 0xaa, 0xbb, 0xcc], v4InV6 ++ [1, 1, 1, 2], "Foo".data⟩ ∧
    ((∀ (g : StaticDhcpHost) (f : StoreFile) (fld v : List Char),
        Update g f ≠ .error (.duplicated fld v)) ∧
      ∃ content hosts',
        Update ⟨[2, 4, 6, 0xaa, 0xbb, 0xcc], v4InV6 ++ [1, 1, 1, 2], "Foo".data⟩
          (some twoHostsContent) = .ok (some content) ∧
        findAll (some content) = .ok hosts' ∧
        (⟨[2, 4, 6, 0xaa, 0xbb, 0xcc], v4InV6 ++ [1, 1, 1, 2], "Foo".data⟩ :
          StaticDhcpHost) ∈ hosts' ∧
        ∀ h ∈ hosts',
          (h.MacAddress = [2, 4, 6, 0xaa, 0xbb, 0xcc] ∨
            h.IPAddress = v4InV6 ++ [1, 1, 1, 2]) →
          h = ⟨[2, 4, 6, 0xaa, 0xbb, 0xcc], v4InV6 ++ [1, 1, 1, 2], "Foo".data⟩) :=
  ⟨rfl, by decide,
    C2_update_upsert ⟨[2, 4, 6, 0xaa, 0xbb, 0xcc], v4InV6 ++ [1, 1, 1, 2], "Foo".data⟩
      (some twoHostsContent) [fooHost, barHost] rfl (by decide) (by decide)
      (by decide) (by decide)⟩

/-- C3 counterexample: the record below is valid in the claim's sense
(6-byte MAC, IPv4 address, nonempty hostname `"a,b"`), encodes
successfully, but decoding the encoded line does not give the record back:
the comma inside the hostname makes the line split into four tokens. -/
theorem C3_roundtrip_counterexample :
    commaHost.MacAddress.length = 6 ∧ (∀ b ∈ commaHost.MacAddress, b < 256) ∧
    commaHost.IPAddress = v4InV6 ++ [1, 1, 1, 1] ∧ commaHost.HostName ≠ [] ∧
    (ToConfig commaHost).2 = [] ∧
    FromConfig zeroHost (ToConfig commaHost).1 ≠ (commaHost, []) := by
  decide

/-- C3 (amended): for every entry with a 6-byte MAC, an IPv4 address in
the 16-byte representation `net.ParseIP` produces, and a nonempty
comma-free hostname (`ValidEntry`), encoding succeeds and decoding the
encoded line (into any receiver) yields the entry back with no error. -/
theorem C3_decode_encode_roundtrip (e h0 : StaticDhcpHost) (hv : ValidEntry e) :
    (ToConfig e).2 = [] ∧ FromConfig h0 (ToConfig e).1 = (e, []) :=
  ⟨by rw [ToConfig_valid e hv], FromConfig_ToConfig e h0 hv⟩

/-- C3 witness: the round trip evaluated on the repository's own test
entry. -/
theorem C3_decode_encode_roundtrip_witness :
    ValidEntry fooHost ∧
    (ToConfig fooHost).2 = [] ∧ FromConfig zeroHost (ToConfig fooHost).1 = (fooHost, []) :=
  ⟨by decide, (C3_decode_encode_roundtrip fooHost zeroHost (by decide)).1,
    (C3_decode_encode_roundtrip fooHost zeroHost (by decide)).2⟩

/-- C4: on a three-token line whose scanned MAC token and IP token are
both malformed, decoding returns the single joined error reporting both
failures — the invalid-MAC message followed by the invalid-IP message,
not just the first. -/
theorem C4_decode_joins_both_address_errors (cfg t0 t1 t2 mac : List Char)
    (h0 : StaticDhcpHost) (hsp : splitChar ',' cfg = [t0, t1, t2])
    (hsc : sscanfDhcpHost t0 = .ok mac) (hmac : parseMAC mac = none)
    (hip : parseIP t1 = none) :
    (FromConfig h0 cfg).2 = [errInvalidMACMsg mac, errInvalidIPMsg t1] := by
  unfold FromConfig
  simp only [hsp, hsc, hmac, hip]
  simp

/-- C4 witness: the repository's own test line with both addresses
invalid. -/
theorem C4_decode_joins_both_address_errors_witness :
    splitChar ',' "dhcp-host=ab:cd:ef:gh:ij:kl,11.1.1,Jung".data =
      ["dhcp-host=ab:cd:ef:gh:ij:kl".data, "11.1.1".data, "Jung".data] ∧
    sscanfDhcpHost "dhcp-host=ab:cd:ef:gh:ij:kl".data = .ok "ab:cd:ef:gh:ij:kl".data ∧
    parseMAC "ab:cd:ef:gh:ij:kl".data = none ∧ parseIP "11.1.1".data = none ∧
    (FromConfig zeroHost "dhcp-host=ab:cd:ef:gh:ij:kl,11.1.1,Jung".data).2 =
      [errInvalidMACMsg "ab:cd:ef:gh:ij:kl".data, errInvalidIPMsg "11.1.1".data] :=
  ⟨rfl, rfl, rfl, rfl,
    C4_decode_joins_both_address_errors "dhcp-host=ab:cd:ef:gh:ij:kl,11.1.1,Jung".data
      "dhcp-host=ab:cd:ef:gh:ij:kl".data "11.1.1".data "Jung".data
      "ab:cd:ef:gh:ij:kl".data zeroHost rfl rfl rfl rfl⟩

/-- The `check` error accumulator is the concatenation of the three
independent missing-field checks, in source order. -/
theorem check_eq (h : StaticDhcpHost) :
    check h = (if macString h.MacAddress = [] then [errMissingMAC] else []) ++
      (if ipString h.IPAddress = "<nil>".data then [errMissingIP] else []) ++
      (if h.HostName = [] then [errMissingHost] else []) := by
  unfold check
  by_cases cm : macString h.MacAddress = [] <;>
    by_cases ci : ipString h.IPAddress = "<nil>".data <;>
      by_cases ch : h.HostName = [] <;>
        simp [cm, ci, ch]

/-- C5: encoding an entry with any unset field fails, the error joins the
missing-field message of every unset field among MAC, IP and hostname
(all three for the zero entry), and the string result of a failed encode
is always empty. -/
theorem C5_encode_reports_missing_fields (h : StaticDhcpHost)
    (hun : h.MacAddress = [] ∨ h.IPAddress = [] ∨ h.HostName = []) :
    (ToConfig h).1 = [] ∧ (ToConfig h).2 ≠ [] ∧
    (h.MacAddress = [] → errMissingMAC ∈ (ToConfig h).2) ∧
    (h.IPAddress = [] → errMissingIP ∈ (ToConfig h).2) ∧
    (h.HostName = [] → errMissingHost ∈ (ToConfig h).2) ∧
    (∀ g : StaticDhcpHost, (ToConfig g).2 ≠ [] → (ToConfig g).1 = []) := by
  have hgen : ∀ g : StaticDhcpHost, (ToConfig g).2 ≠ [] → (ToConfig g).1 = [] := by
    intro g hne
    unfold ToConfig at hne ⊢
    by_cases hc : check g = []
    · simp [hc] at hne
    · simp [hc]
  have hmac_imp : h.MacAddress = [] → macString h.MacAddress = [] :=
    fun hm => by rw [hm]; rfl
  have hip_imp : h.IPAddress = [] → ipString h.IPAddress = "<nil>".data :=
    fun hm => by rw [hm]; rfl
  have hne : check h ≠ [] := by
    rw [check_eq]
    rcases hun with hm | hm | hm
    · simp [hmac_imp hm]
    · simp [hip_imp hm]
    · simp [hm]
  have hto1 : (ToConfig h).1 = [] := by
    unfold ToConfig
    rw [if_neg hne]
  have hto2 : (ToConfig h).2 = check h := by
    unfold ToConfig
    rw [if_neg hne]
  refine ⟨hto1, by rw [hto2]; exact hne, ?_, ?_, ?_, hgen⟩
  · intro hm
    rw [hto2, check_eq]
    simp [hmac_imp hm]
  · intro hm
    rw [hto2, check_eq]
    simp [hip_imp hm]
  · intro hm
    rw [hto2, check_eq]
    simp [hm]

/-- C5 witness: encoding the zero entry fails with all three missing-field
errors and the empty string. -/
theorem C5_encode_reports_missing_fields_witness :
    (ToConfig zeroHost).1 = [] ∧ (ToConfig zeroHost).2 ≠ [] ∧
    (zeroHost.MacAddress = [] → errMissingMAC ∈ (ToConfig zeroHost).2) ∧
    (zeroHost.IPAddress = [] → errMissingIP ∈ (ToConfig zeroHost).2) ∧
    (zeroHost.HostName = [] → errMissingHost ∈ (ToConfig zeroHost).2) ∧
    (∀ g : StaticDhcpHost, (ToConfig g).2 ≠ [] → (ToConfig g).1 = []) :=
  C5_encode_reports_missing_fields zeroHost (Or.inl rfl)

/-- C6: the read path skips every line lacking the `dhcp-host=` prefix
without error (a file of only such lines reads back as the empty
collection), while any prefixed line that fails to decode aborts the whole
read with an error, returning no entries. -/
theorem C6_read_skips_foreign_aborts_corrupt (content : List Char) :
    ((∀ l ∈ goLines content, hasPfx "dhcp-host=".data l = false) →
      findAll (some content) = .ok []) ∧
    ((∃ l ∈ goLines content, hasPfx "dhcp-host=".data l = true ∧
        (FromConfig zeroHost l).2 ≠ []) →
      ∃ e, findAll (some content) = .error (.corrupt e)) := by
  constructor
  · intro hall
    simp only [findAll, parseHosts_skips (goLines content) hall]
  · intro hex
    obtain ⟨e, he⟩ := parseHosts_abort (goLines content) hex
    exact ⟨e, by simp only [findAll, he]⟩

/-- C6 witness: a file of comments and foreign directives reads back
empty; a file whose prefixed line has a malformed MAC aborts the read. -/
theorem C6_read_skips_foreign_aborts_corrupt_witness :
    (∀ l ∈ goLines "# a comment\nother-directive=1".data,
      hasPfx "dhcp-host=".data l = false) ∧
    findAll (some "# a comment\nother-directive=1".data) = .ok [] ∧
    (∃ l ∈ goLines "dhcp-host=ab:cd:ef:gh:ij:kl,1.1.1.1,Jung".data,
      hasPfx "dhcp-host=".data l = true ∧ (FromConfig zeroHost l).2 ≠ []) ∧
    (∃ e, findAll (some "dhcp-host=ab:cd:ef:gh:ij:kl,1.1.1.1,Jung".data) =
      .error (.corrupt e)) :=
  ⟨by decide,
    (C6_read_skips_foreign_aborts_corrupt "# a comment\nother-directive=1".data).1
      (by decide),
    by decide,
    (C6_read_skips_foreign_aborts_corrupt
      "dhcp-host=ab:cd:ef:gh:ij:kl,1.1.1.1,Jung".data).2 (by decide)⟩

/-- C7: each of the three delete operations, when its key matches no
entry of the store, returns no entry and no error and performs no write:
the resulting store state is byte-identical to the input state. -/
theorem C7_delete_no_match_no_write (file : StoreFile) (hosts : List StaticDhcpHost)
    (hfa : findAll file = .ok hosts) :
    (∀ g : StaticDhcpHost, (∀ h ∈ hosts, Equal h g = false) →
      delete g file = .ok (none, file)) ∧
    (∀ mac : List Nat, (∀ h ∈ hosts, h.MacAddress ≠ mac) →
      deleteByMac mac file = .ok (none, file)) ∧
    (∀ ip : List Nat, (∀ h ∈ hosts, h.IPAddress ≠ ip) →
      deleteByIP ip file = .ok (none, file)) := by
  refine ⟨?_, ?_, ?_⟩
  · intro g hno
    have hfind : hosts.find? (fun h => Equal h g) = none :=
      List.find?_eq_none.mpr (fun x hx => by simp [hno x hx])
    unfold delete deleteBy
    simp only [hfa, hfind]
  · intro mac hno
    have hfind : hosts.find? (fun h => h.MacAddress = mac) = none :=
      List.find?_eq_none.mpr (fun x hx => by simp [hno x hx])
    unfold deleteByMac deleteBy
    simp only [hfa, hfind]
  · intro ip hno
    have hfind : hosts.find? (fun h => h.IPAddress = ip) = none :=
      List.find?_eq_none.mpr (fun x hx => by simp [hno x hx])
    unfold deleteByIP deleteBy
    simp only [hfa, hfind]

/-- C7 witness: deleting an absent record, MAC and IP from a two-entry
store returns no entry, no error, and the identical file bytes. -/
theorem C7_delete_no_match_no_write_witness :
    findAll (some twoHostsContent) = .ok [fooHost, barHost] ∧
    delete ⟨[9, 9, 9, 9, 9, 9], v4InV6 ++ [9, 9, 9, 9], "Unknown".data⟩
      (some twoHostsContent) = .ok (none, some twoHostsContent) ∧
    deleteByMac [9, 9, 9, 9, 9, 9] (some twoHostsContent) =
      .ok (none, some twoHostsContent) ∧
    deleteByIP (v4InV6 ++ [9, 9, 9, 9]) (some twoHostsContent) =
      .ok (none, some twoHostsContent) :=
  ⟨rfl,
    (C7_delete_no_match_no_write (some twoHostsContent) [fooHost, barHost] rfl).1
      ⟨[9, 9, 9, 9, 9, 9], v4InV6 ++ [9, 9, 9, 9], "Unknown".data⟩ (by decide),
    (C7_delete_no_match_no_write (some twoHostsContent) [fooHost, barHost] rfl).2.1
      [9, 9, 9, 9, 9, 9] (by decide),
    (C7_delete_no_match_no_write (some twoHostsContent) [fooHost, barHost] rfl).2.2
      (v4InV6 ++ [9, 9, 9, 9]) (by decide)⟩

/-- C8: every mutation writes the entry list as newline-joined encoded
lines: a saved file neither starts nor ends with a newline (no leading
blank line when the store was empty, since saving into an empty file
writes exactly the encoded line), and deleting the sole remaining entry
leaves a zero-byte file rather than a blank line. -/
theorem C8_mutations_serialize_newline_joined :
    (∀ (h : StaticDhcpHost) (hosts : List StaticDhcpHost) (file : StoreFile),
      findAll file = .ok hosts → (∀ g ∈ hosts, WellFormedHost g) → WellFormedHost h →
      ∃ content, save h file = .ok (some content) ∧
        content.head? ≠ some '\n' ∧ content.getLast? ≠ some '\n') ∧
    (∀ h : StaticDhcpHost, WellFormedHost h →
      save h (some []) = .ok (some (ToConfig h).1)) ∧
    (∀ (file : StoreFile) (h1 : StaticDhcpHost), findAll file = .ok [h1] →
      deleteByMac h1.MacAddress file = .ok (some h1, some [])) := by
  refine ⟨?_, ?_, ?_⟩
  · intro h hosts file hfa hwf hwfh
    obtain ⟨hsave, -⟩ := save_ok h file hosts hfa hwf hwfh
    have hwf2 : ∀ g ∈ hosts ++ [h], WellFormedHost g := by
      intro g hg
      rcases List.mem_append.mp hg with hg | hg
      · exact hwf g hg
      · rw [List.mem_singleton.mp hg]; exact hwfh
    have hlne : ∀ l ∈ (hosts ++ [h]).map (fun g => (ToConfig g).1), l ≠ [] := by
      intro l hm
      obtain ⟨g, hg, hgl⟩ := List.mem_map.mp hm
      exact hgl ▸ (encLine_facts g (hwf2 g hg)).2.1
    have hlnl : ∀ l ∈ (hosts ++ [h]).map (fun g => (ToConfig g).1), '\n' ∉ l := by
      intro l hm
      obtain ⟨g, hg, hgl⟩ := List.mem_map.mp hm
      exact hgl ▸ (encLine_facts g (hwf2 g hg)).2.2.1
    have h0 : (hosts ++ [h]).map (fun g => (ToConfig g).1) ≠ [] := by simp
    obtain ⟨hh, hl⟩ := intercalate_ends _ h0 hlne hlnl
    exact ⟨_, hsave, hh, hl⟩
  · intro h hwfh
    obtain ⟨hsave, -⟩ := save_ok h (some []) [] rfl (by simp) hwfh
    have hmap : (([] : List StaticDhcpHost) ++ [h]).map (fun g => (ToConfig g).1) =
        [(ToConfig h).1] := by simp
    rw [hmap, intercalate_single] at hsave
    exact hsave
  · intro file h1 hfa
    have hfind : [h1].find? (fun g => g.MacAddress = h1.MacAddress) = some h1 := by simp
    have her : [h1].eraseP (fun g => g.MacAddress = h1.MacAddress) = [] := by
      simp [List.eraseP_cons]
    unfold deleteByMac deleteBy
    simp only [hfa, hfind, her]
    rfl

/-- C8 witness: saving into a one-entry store yields a file without
leading or trailing newline; saving into an empty file writes exactly the
encoded line; deleting the sole entry leaves a zero-byte file. -/
theorem C8_mutations_serialize_newline_joined_witness :
    findAll (some oneHostContent) = .ok [fooHost] ∧
    (∃ content, save barHost (some oneHostContent) = .ok (some content) ∧
      content.head? ≠ some '\n' ∧ content.getLast? ≠ some '\n') ∧
    save fooHost (some []) = .ok (some (ToConfig fooHost).1) ∧
    deleteByMac fooHost.MacAddress (some oneHostContent) = .ok (some fooHost, some []) :=
  ⟨rfl,
    C8_mutations_serialize_newline_joined.1 barHost [fooHost] (some oneHostContent)
      rfl (by decide) (by decide),
    C8_mutations_serialize_newline_joined.2.1 fooHost (by decide),
    C8_mutations_serialize_newline_joined.2.2 (some oneHostContent) fooHost rfl⟩

/-- C9 counterexample: the line `dhcp-host=,1.1.1.1,Foo` splits into
exactly three tokens and starts with `dhcp-host=`, yet decoding fails at
the scan step and returns with the receiver untouched: the hostname field
is not assigned the third token. -/
theorem C9_decode_receiver_counterexample :
    (splitChar ',' "dhcp-host=,1.1.1.1,Foo".data).length = 3 ∧
    hasPfx "dhcp-host=".data "dhcp-host=,1.1.1.1,Foo".data = true ∧
    (splitChar ',' "dhcp-host=,1.1.1.1,Foo".data).getLast? = some "Foo".data ∧
    (FromConfig zeroHost "dhcp-host=,1.1.1.1,Foo".data).2 ≠ [] ∧
    (FromConfig zeroHost "dhcp-host=,1.1.1.1,Foo".data).1 = zeroHost ∧
    (FromConfig zeroHost "dhcp-host=,1.1.1.1,Foo".data).1.HostName ≠ "Foo".data := by
  decide

/-- C9 (amended): for every line splitting into exactly three tokens whose
first token scans successfully against `dhcp-host=%s` (the prefix followed
by a nonempty token), decoding assigns the third token to the receiver's
hostname, the parsed IP whenever the second token parses, and the parsed
MAC (or nil), even when it returns a non-nil error. -/
theorem C9_decode_assigns_fields (h0 : StaticDhcpHost) (cfg t0 t1 t2 mac : List Char)
    (hsp : splitChar ',' cfg = [t0, t1, t2])
    (hsc : sscanfDhcpHost t0 = .ok mac) :
    (FromConfig h0 cfg).1.HostName = t2 ∧
    (∀ ip, parseIP t1 = some ip → (FromConfig h0 cfg).1.IPAddress = ip) ∧
    (FromConfig h0 cfg).1.MacAddress = (parseMAC mac).getD [] := by
  unfold FromConfig
  simp only [hsp, hsc]
  refine ⟨by simp, fun ip hip => by simp [hip], by simp⟩

/-- C9 witness: a line with an invalid MAC decodes with an error, yet the
receiver's hostname and IP are assigned from the tokens. -/
theorem C9_decode_assigns_fields_witness :
    splitChar ',' "dhcp-host=ab:cd:ef:gh:ij:kl,1.1.1.1,Jung".data =
      ["dhcp-host=ab:cd:ef:gh:ij:kl".data, "1.1.1.1".data, "Jung".data] ∧
    sscanfDhcpHost "dhcp-host=ab:cd:ef:gh:ij:kl".data = .ok "ab:cd:ef:gh:ij:kl".data ∧
    ((FromConfig zeroHost "dhcp-host=ab:cd:ef:gh:ij:kl,1.1.1.1,Jung".data).1.HostName =
        "Jung".data ∧
      (∀ ip, parseIP "1.1.1.1".data = some ip →
        (FromConfig zeroHost "dhcp-host=ab:cd:ef:gh:ij:kl,1.1.1.1,Jung".data).1.IPAddress =
          ip) ∧
      (FromConfig zeroHost "dhcp-host=ab:cd:ef:gh:ij:kl,1.1.1.1,Jung".data).1.MacAddress =
        (parseMAC "ab:cd:ef:gh:ij:kl".data).getD []) :=
  ⟨rfl, rfl,
    C9_decode_assigns_fields zeroHost "dhcp-host=ab:cd:ef:gh:ij:kl,1.1.1.1,Jung".data
      "dhcp-host=ab:cd:ef:gh:ij:kl".data "1.1.1.1".data "Jung".data
      "ab:cd:ef:gh:ij:kl".data rfl rfl⟩

/-- C10: the decoder accepts what `net.ParseIP` accepts, not only IPv4:
the line `dhcp-host=02:04:06:aa:bb:cc,::1,Foo` decodes without error into
an entry whose IP address is the IPv6 loopback `::1`. -/
theorem C10_decode_accepts_ipv6 :
    parseIP "::1".data = some [0, 0, 0, 0, 0, 0, 0, 0, 0, 0, 0, 0, 0, 0, 0, 1] ∧
    FromConfig zeroHost "dhcp-host=02:04:06:aa:bb:cc,::1,Foo".data =
      (⟨[2, 4, 6, 0xaa, 0xbb, 0xcc],
        [0, 0, 0, 0, 0, 0, 0, 0, 0, 0, 0, 0, 0, 0, 0, 1], "Foo".data⟩, []) := by
  decide

end DMM

